import Mathlib

/-!
Verification of the RESP codec and the in-memory data engine of a small
Redis-compatible server written in Rust.

Bytes are modelled as `Nat` (values 0–255 in real buffers); byte buffers as
`List Nat`.  The Rust code mutates a `BytesMut` buffer in place; here every
parser takes the buffer and returns an outcome that carries the remaining
buffer, so "advance"/"split_to" become `List.drop`/`List.take`.  Rust panics
(out-of-bounds indexing or slicing, out-of-range `drain`) are modelled by an
explicit `panic` outcome.  `SystemTime::now()` is passed in as an explicit
`now : Nat` (milliseconds since epoch) wherever the source reads the clock.
-/

/-- RESP values, mirroring `enum RedisType` in `parser.rs`.
`array none` is the null array, `array (some l)` a real array. -/
inductive RedisType where
  | simpleString : List Nat → RedisType
  | bulkString : List Nat → RedisType
  | integer : Int → RedisType
  | nullBulkString : RedisType
  | simpleError : List Nat → RedisType
  | array : Option (List RedisType) → RedisType

/-- Outcome of a parser call.  `ok v rest` is `Ok(v)` with `rest` the buffer
contents after the call; `err rest` is `Err(InvalidFormat)` with the buffer
state at the moment of return (the Rust code mutates the buffer in place, so
bytes may already have been consumed); `panic` models a Rust panic
(out-of-bounds index or slice); `noFuel` is only ever produced when the fuel
argument of `parse_array` runs out and never occurs at the fuel values used
in the theorems below. -/
inductive PR where
  | ok : RedisType → List Nat → PR
  | err : List Nat → PR
  | panic : PR
  | noFuel : PR

/-- Position of the first CRLF (`\r\n` = bytes 13,10) window in the buffer,
mirroring `buffer.windows(2).position(|w| w == CRLF)`. -/
def findCRLF : List Nat → Option Nat
  | [] => none
  | a :: l =>
    if a = 13 ∧ l.head? = some 10 then some 0
    else (findCRLF l).map (· + 1)

/-- Whether the buffer contains a CRLF window anywhere. -/
def hasCRLF : List Nat → Bool
  | [] => false
  | a :: l =>
    if a = 13 ∧ l.head? = some 10 then true else hasCRLF l

/-- Base-10 digits of `n`, least significant first, with an explicit fuel
bound so the definition is structural (any `fuel ≥ n` gives the digits). -/
def digitsRevFuel : Nat → Nat → List Nat
  | 0, _ => []
  | f + 1, n => if n = 0 then [] else n % 10 :: digitsRevFuel f (n / 10)

/-- ASCII decimal digits of a natural number, most significant first,
mirroring Rust's `usize::to_string` (`0` renders as `"0"`). -/
def asciiOfNat (n : Nat) : List Nat :=
  if n = 0 then [48] else ((digitsRevFuel n n).reverse.map (· + 48))

/-- ASCII decimal rendering of a signed integer, mirroring
`i128::to_string` (minimal decimal, leading `-` for negatives). -/
def asciiOfInt (i : Int) : List Nat :=
  if i < 0 then 45 :: asciiOfNat i.natAbs else asciiOfNat i.toNat

/-- Rust's `str::parse::<usize>()` on a byte string: an optional leading
`+`, then one or more ASCII digits; values ≥ 2^64 overflow to `Err`. -/
def parseUsize (s : List Nat) : Option Nat :=
  let t := if s.head? = some 43 then s.tail else s
  if t = [] then none
  else if t.all (fun b => 48 ≤ b && b ≤ 57) then
    let v := t.foldl (fun acc b => acc * 10 + (b - 48)) 0
    if v < 2 ^ 64 then some v else none
  else none

/-- `parse_simple_string` from `parser.rs`: content up to the first CRLF,
which must not itself contain `\r` or `\n`; consumes up to and including the
CRLF.  A buffer whose first CRLF sits at position 0 makes the Rust code take
the slice `&buffer[1..0]`, which panics. -/
def parse_simple_string (buffer : List Nat) : PR :=
  match findCRLF buffer with
  | none => .err buffer
  | some e =>
    if e = 0 then .panic
    else if ((buffer.drop 1).take (e - 1)).any (fun b => b == 13 || b == 10) then
      .err buffer
    else
      .ok (.simpleString ((buffer.drop 1).take (e - 1))) (buffer.drop (e + 2))

/-- `parse_simple_error` from `parser.rs`: parse as a simple string and
re-tag the content as a simple error. -/
def parse_simple_error (buffer : List Nat) : PR :=
  match parse_simple_string buffer with
  | .ok (.simpleString content) rest => .ok (.simpleError content) rest
  | .ok _ rest => .err rest
  | other => other

/-- `parse_bulk_string` from `parser.rs`: `$<len>\r\n<len bytes>\r\n`.  The
declared length is parsed as a `usize` (so `-1` is rejected); the distance
to the next CRLF after the length line must equal the declared length
exactly.  Bytes are consumed only after all checks pass. -/
def parse_bulk_string (buffer : List Nat) : PR :=
  match findCRLF buffer with
  | none => .err buffer
  | some p =>
    if p = 0 then .panic
    else
      match parseUsize ((buffer.drop 1).take (p - 1)) with
      | none => .err buffer
      | some size =>
        if ((buffer.drop p).take 2) ≠ [13, 10] then .err buffer
        else
          match findCRLF (buffer.drop (p + 2)) with
          | none => .err buffer
          | some se =>
            if se ≠ size then .err buffer
            else
              .ok (.bulkString ((buffer.drop (p + 2)).take se))
                (buffer.drop (p + 2 + se + 2))

/-- One step of the element loop of `parse_array`: dispatch on the first
byte of the buffer (`+` simple string, `-` simple error, `$` bulk string,
`*` nested array — supplied as the parameter `pa` — anything else yields
`NullBulkString` without consuming any bytes).  `buffer[0]` on an empty
buffer panics. -/
def parseValueWith (pa : List Nat → PR) (buffer : List Nat) : PR :=
  match buffer with
  | [] => .panic
  | b :: _ =>
    if b = 43 then parse_simple_string buffer
    else if b = 45 then parse_simple_error buffer
    else if b = 36 then parse_bulk_string buffer
    else if b = 42 then pa buffer
    else .ok .nullBulkString buffer

/-- The `while elements.len() < array_length` loop of `parse_array`:
parse `n` elements, accumulating them (reversed) in `acc`. -/
def parseElementsWith (pa : List Nat → PR) : Nat → List Nat → List RedisType → PR
  | 0, buffer, acc => .ok (.array (some acc.reverse)) buffer
  | n + 1, buffer, acc =>
    match parseValueWith pa buffer with
    | .ok v rest => parseElementsWith pa n rest (v :: acc)
    | other => other

/-- `parse_array` from `parser.rs`: `*<n>\r\n` followed by `n` recursively
parsed elements.  The count line is consumed (the buffer is advanced) before
any element is parsed.  Reading `buffer[0]` on an empty buffer panics.  The
`fuel` argument only bounds the nesting depth of arrays; the Rust code has
no such bound. -/
def parse_array : Nat → List Nat → PR
  | 0, _ => .noFuel
  | fuel + 1, buffer =>
    match findCRLF buffer with
    | none => .err buffer
    | some p =>
      if p = 0 then .panic
      else
        match parseUsize ((buffer.drop 1).take (p - 1)) with
        | none => .err buffer
        | some n =>
          parseElementsWith (fun b => parse_array fuel b) n (buffer.drop (p + 2)) []

/-- The element dispatch of `parse_array` at a given fuel. -/
def parseValue (fuel : Nat) : List Nat → PR :=
  parseValueWith (parse_array fuel)

/-- The element loop of `parse_array` at a given fuel. -/
def parseElements (fuel : Nat) : Nat → List Nat → List RedisType → PR :=
  parseElementsWith (parse_array fuel)

/-- `parse_resp` from `parser.rs`: top-level inputs are parsed as arrays. -/
def parse_resp (fuel : Nat) (buffer : List Nat) : PR :=
  parse_array fuel buffer

mutual

/-- `RedisType::encode` from `parser.rs`. -/
def RedisType.encode : RedisType → List Nat
  | .simpleString s => 43 :: (s ++ [13, 10])
  | .simpleError s => 45 :: (s ++ [13, 10])
  | .integer n => 58 :: (asciiOfInt n ++ [13, 10])
  | .bulkString s => 36 :: (asciiOfNat s.length ++ [13, 10] ++ s ++ [13, 10])
  | .nullBulkString => [36, 45, 49, 13, 10]
  | .array none => [42, 45, 49, 13, 10]
  | .array (some items) =>
      42 :: (asciiOfNat items.length ++ [13, 10] ++ encodeList items)

/-- Encoding of the elements of an array, in order. -/
def encodeList : List RedisType → List Nat
  | [] => []
  | v :: vs => v.encode ++ encodeList vs

end

mutual

/-- Nesting depth of arrays inside a RESP value; `parse_array` consumes one
unit of fuel per nesting level. -/
def RedisType.depth : RedisType → Nat
  | .array (some items) => 1 + depthList items
  | _ => 0

/-- Maximum nesting depth over a list of values. -/
def depthList : List RedisType → Nat
  | [] => 0
  | v :: vs => max v.depth (depthList vs)

end

mutual

/-- Well-formedness needed for the codec round trip: no `integer` and no
null anywhere (the decoder has no branch for `:` and rejects `$-1`/`*-1`),
simple-string/simple-error payloads free of `\r` and `\n`, bulk-string
payloads free of the CRLF window, and all lengths below 2^64 (`usize`). -/
def RedisType.wf : RedisType → Bool
  | .simpleString s => s.all (fun b => !(b == 13) && !(b == 10))
  | .simpleError s => s.all (fun b => !(b == 13) && !(b == 10))
  | .integer _ => false
  | .nullBulkString => false
  | .bulkString s => !(hasCRLF s) && decide (s.length < 2 ^ 64)
  | .array none => false
  | .array (some items) => decide (items.length < 2 ^ 64) && wfList items

/-- `RedisType.wf` on every element of a list. -/
def wfList : List RedisType → Bool
  | [] => true
  | v :: vs => v.wf && wfList vs

end

/-! ## The in-memory data engine (`store.rs`) -/

/-- The bytes of an ASCII string, used for keys and values in examples and
for the `TYPE` reply strings. -/
def bytesOf (s : String) : List Nat := s.toList.map Char.toNat

/-- `struct WithExpiry`: a string value with an optional absolute expiry in
milliseconds since the epoch. -/
structure WithExpiry where
  value : List Nat
  expires : Option Nat
deriving DecidableEq, Repr

/-- `enum KeyType`: the type tag recorded for each key. -/
inductive KeyType where
  | key | list | stream
deriving DecidableEq, Repr

/-- `enum StoreError`. -/
inductive StoreError where
  | keyNotFound | keyExpired | timeError
  | streamIdSmallerThanLast | streamIdNotGreaterThan0
deriving DecidableEq, Repr

/-- `struct StreamId { ms: u128, seq: u128 }`.  The `u128` halves are
modelled as unbounded naturals; every claim below is insensitive to wrap at
2^128, which is unreachable through the validated code paths. -/
structure StreamId where
  ms : Nat
  seq : Nat
deriving DecidableEq, Repr

/-- The derived `Ord` on `StreamId` compares `(ms, seq)` lexicographically:
strict order. -/
def StreamId.slt (a b : StreamId) : Prop :=
  a.ms < b.ms ∨ (a.ms = b.ms ∧ a.seq < b.seq)

instance : DecidablePred (fun p : StreamId × StreamId => p.1.slt p.2) :=
  fun _ => by unfold StreamId.slt; infer_instance

instance (a b : StreamId) : Decidable (a.slt b) := by
  unfold StreamId.slt; infer_instance

/-- Non-strict lexicographic order on `StreamId`. -/
def StreamId.sle (a b : StreamId) : Prop := a = b ∨ a.slt b

instance (a b : StreamId) : Decidable (a.sle b) := by
  unfold StreamId.sle; infer_instance

/-- A waiting BLPOP client: `struct WaitingClient` holds a client id and a
oneshot sender.  The only observable fact about the sender in the engine is
whether `send` succeeds (the receiver is still alive) or fails (the peer is
gone); that is modelled by the `alive` flag. -/
structure WaitingClient where
  identifier : Nat
  alive : Bool
deriving DecidableEq, Repr

/-- A stream entry's field map (`HashMap<Bytes, Bytes>`), as an association
list. -/
abbrev FieldMap := List (List Nat × List Nat)

/-- The per-stream ordered map (`BTreeMap<StreamId, _>`), as an association
list kept sorted in strictly increasing id order. -/
abbrev StreamMap := List (StreamId × FieldMap)

/-- `struct Store`: the three value maps, the type-tag map and the BLPOP
waiting queue.  Rust `HashMap`s become functions to `Option`. -/
structure Store where
  key_types : List Nat → Option KeyType
  streams : List Nat → Option StreamMap
  keys : List Nat → Option WithExpiry
  lists : List Nat → Option (List (List Nat))
  blpop_waiting_queue : List Nat → Option (List WaitingClient)

/-- `HashMap::insert`. -/
def upd {V : Type} (m : List Nat → Option V) (k : List Nat) (v : V) :
    List Nat → Option V :=
  fun k' => if k' = k then some v else m k'

/-- `HashMap::remove`. -/
def del {V : Type} (m : List Nat → Option V) (k : List Nat) :
    List Nat → Option V :=
  fun k' => if k' = k then none else m k'

/-- `Store::new` / `Store::default`: all maps empty. -/
def Store.new : Store :=
  ⟨fun _ => none, fun _ => none, fun _ => none, fun _ => none, fun _ => none⟩

/-- `Store::notify_first_waiting_client`: if the key has a waiting queue and
a non-empty list, pop the first waiter, remove the list head and send
`[key, element]` to that waiter.  On send success, return immediately; on
failure the element stays removed (dropped) and only the empty-queue cleanup
runs.  The returned `Option` is the delivered message, tagged with the
receiving client's identifier. -/
def Store.notify_first_waiting_client (st : Store) (key : List Nat) :
    Store × Option (Nat × RedisType) :=
  match st.blpop_waiting_queue key with
  | none => (st, none)
  | some q =>
    match st.lists key with
    | none => (st, none)
    | some [] => (st, none)
    | some (v :: restList) =>
      match q with
      | [] =>
        ({ st with blpop_waiting_queue := del st.blpop_waiting_queue key }, none)
      | c :: cs =>
        let st1 := { st with
          lists := upd st.lists key restList,
          blpop_waiting_queue := upd st.blpop_waiting_queue key cs }
        let response := RedisType.array (some
          [RedisType.bulkString key, RedisType.bulkString v])
        if c.alive then (st1, some (c.identifier, response))
        else if cs.isEmpty then
          ({ st1 with blpop_waiting_queue := del st1.blpop_waiting_queue key }, none)
        else (st1, none)

/-- `Store::rpush`: set the type tag to `list`, append the values to the
(lazily created) list, record the new length, then notify the first waiting
client.  Returns the new store, the length returned to the caller, and the
message delivered by the notifier, if any. -/
def Store.rpush (st : Store) (key : List Nat) (values : List (List Nat)) :
    Store × Nat × Option (Nat × RedisType) :=
  let st1 := { st with key_types := upd st.key_types key .list }
  let newList := ((st1.lists key).getD []) ++ values
  let st2 := { st1 with lists := upd st1.lists key newList }
  let (st3, sent) := st2.notify_first_waiting_client key
  (st3, newList.length, sent)

/-- `Store::lpush`: like `rpush` but the reversed values are spliced at the
front, so the final order of the new values is the reverse of the argument
order. -/
def Store.lpush (st : Store) (key : List Nat) (values : List (List Nat)) :
    Store × Nat × Option (Nat × RedisType) :=
  let st1 := { st with key_types := upd st.key_types key .list }
  let newList := values.reverse ++ ((st1.lists key).getD [])
  let st2 := { st1 with lists := upd st1.lists key newList }
  let (st3, sent) := st2.notify_first_waiting_client key
  (st3, newList.length, sent)

/-- `Store::get` at wall-clock time `now` (milliseconds): absent keys give
`KeyNotFound`; a stored expiry strictly below `now` gives `KeyExpired`;
otherwise the value is returned. -/
def Store.get (st : Store) (key : List Nat) (now : Nat) :
    Except StoreError (List Nat) :=
  match st.keys key with
  | none => .error .keyNotFound
  | some r =>
    match r.expires with
    | some expiry => if expiry < now then .error .keyExpired else .ok r.value
    | none => .ok r.value

/-- `Store::set_with_expiry` at wall-clock time `now`: sets the type tag to
`key` and stores the value with absolute expiry `now + expiry` when a
relative expiry is given.  (The `TimeError` branch fires only when the
system clock predates the epoch and is unrepresentable here.) -/
def Store.set_with_expiry (st : Store) (key value : List Nat)
    (expiry : Option Nat) (now : Nat) : Store :=
  { st with
    key_types := upd st.key_types key .key,
    keys := upd st.keys key ⟨value, expiry.map (fun e => now + e)⟩ }

/-- `Store::llen`: list length, 0 when absent. -/
def Store.llen (st : Store) (key : List Nat) : Nat :=
  ((st.lists key).map List.length).getD 0

/-- `Store::get_type`: the TYPE reply bytes. -/
def Store.get_type (st : Store) (key : List Nat) : List Nat :=
  match st.key_types key with
  | some .key => bytesOf ("string")
  | some .list => bytesOf ("list")
  | some .stream => bytesOf ("stream")
  | none => bytesOf ("none")

/-- Outcome of `Store::lpop`. -/
inductive LpopResult where
  | ok : List (List Nat) → LpopResult
  | keyNotFound : LpopResult
  | panic : LpopResult
deriving DecidableEq, Repr

/-- `Store::lpop`: `self.lists.entry(key).or_default()` inserts an empty
list when the key is absent (even on the error path); an empty list gives
`KeyNotFound`; otherwise `list.drain(..amount as usize)` removes the first
`amount` elements.  The `i128 → usize` cast wraps modulo 2^64, and `drain`
panics when the resulting index exceeds the list length — there is no
clamping in the source. -/
def Store.lpop (st : Store) (key : List Nat) (amount : Int) :
    Store × LpopResult :=
  let list := (st.lists key).getD []
  let st1 := { st with lists := upd st.lists key list }
  if list.isEmpty then (st1, .keyNotFound)
  else
    let n : Nat := (amount % (2 : Int) ^ 64).toNat
    if n ≤ list.length then
      ({ st1 with lists := upd st1.lists key (list.drop n) }, .ok (list.take n))
    else (st1, .panic)

/-- `Store::lpop_for_blpop`: pop one element if the list exists and is
non-empty, returning `[key, element]`; never touches absent keys. -/
def Store.lpop_for_blpop (st : Store) (key : List Nat) :
    Store × Option (List (List Nat)) :=
  match st.lists key with
  | none => (st, none)
  | some [] => (st, none)
  | some (v :: t) =>
    ({ st with lists := upd st.lists key t }, some [key, v])

/-- `Store::register_waiting_client`: append a waiter to the key's FIFO
queue (the caller supplies the freshly allocated client). -/
def Store.register_waiting_client (st : Store) (key : List Nat)
    (c : WaitingClient) : Store :=
  let q := ((st.blpop_waiting_queue key).getD []) ++ [c]
  { st with blpop_waiting_queue := upd st.blpop_waiting_queue key q }

/-- `Store::remove_waiting_client`: drop the waiter with the given id from
the key's queue and garbage-collect the queue if it became empty. -/
def Store.remove_waiting_client (st : Store) (key : List Nat)
    (client_id : Nat) : Store :=
  match st.blpop_waiting_queue key with
  | none => st
  | some q =>
    let q' := q.filter (fun c => c.identifier ≠ client_id)
    if q'.isEmpty then
      { st with blpop_waiting_queue := del st.blpop_waiting_queue key }
    else
      { st with blpop_waiting_queue := upd st.blpop_waiting_queue key q' }

/-! ### XADD (`store.rs`) -/

/-- `chunks_exact(2)`: consecutive pairs, discarding a trailing odd
element. -/
def chunks2 {α : Type} : List α → List (α × α)
  | a :: b :: t => (a, b) :: chunks2 t
  | _ => []

/-- `HashMap::insert` on the association-list field map: replace the value
when the field is present, append otherwise. -/
def assocInsert (m : FieldMap) (k v : List Nat) : FieldMap :=
  if m.any (fun p => p.1 = k) then
    m.map (fun p => if p.1 = k then (k, v) else p)
  else m ++ [(k, v)]

/-- `insert_keys_and_values` from `store.rs`: iterate over the argument
pairs and insert `field.to_bytes() → value.to_bytes()` (note: `to_bytes` is
the full RESP encoding of the argument, not its payload). -/
def insert_keys_and_values (args : List RedisType) (m : FieldMap) : FieldMap :=
  (chunks2 args).foldl (fun m p => assocInsert m p.1.encode p.2.encode) m

/-- `BTreeMap::last_key_value().map(|(id, _)| id)` on the sorted
association list. -/
def btreeLastId (btree : StreamMap) : Option StreamId :=
  btree.getLast?.map Prod.fst

/-- `btree.entry(id).or_default()` followed by writing map `m` at that
entry: ordered insert-or-replace keyed by the lexicographic id order. -/
def btreeInsert (btree : StreamMap) (id : StreamId) (m : FieldMap) : StreamMap :=
  match btree with
  | [] => [(id, m)]
  | (k, v) :: t =>
    if id.slt k then (id, m) :: (k, v) :: t
    else if id = k then (id, m) :: t
    else (k, v) :: btreeInsert t id m

/-- The big id-resolution `match (ms, seq)` of `Store::xadd`.  `none` is the
`(None, Some seq)` arm, which the source rejects (with, oddly,
`StreamIdSmallerThanLast`). -/
def resolveId (ms seq : Option Nat) (lastId : StreamId) (now : Nat) :
    Option StreamId :=
  match ms, seq with
  | some potMs, some potSeq => some ⟨potMs, potSeq⟩
  | some potMs, none =>
    if potMs = lastId.ms then some ⟨potMs, lastId.seq + 1⟩
    else if potMs = 0 then some ⟨potMs, 1⟩
    else some ⟨potMs, 0⟩
  | none, none =>
    let newMs := max now lastId.ms
    if lastId.ms = newMs then some ⟨lastId.ms, lastId.seq + 1⟩
    else if newMs = 0 then some ⟨0, 1⟩
    else some ⟨newMs, 0⟩
  | none, some _ => none

/-- Outcome of `Store::xadd`. -/
inductive XaddResult where
  | ok : StreamId → XaddResult
  | smallerThanLast : XaddResult
  | notGreaterThan0 : XaddResult
deriving DecidableEq, Repr

/-- `Store::xadd`: the type tag is set to `stream` FIRST, before the id is
resolved or validated.  Then the id is resolved against the current top id,
rejected with `StreamIdNotGreaterThan0` when below `(0,1)`, rejected with
`StreamIdSmallerThanLast` when the stream exists and its top id is ≥ the
resolved id, and otherwise inserted. -/
def Store.xadd (st : Store) (stream_key : List Nat) (seq ms : Option Nat)
    (now : Nat) (args : List RedisType) : Store × XaddResult :=
  let st1 := { st with key_types := upd st.key_types stream_key .stream }
  let minId : StreamId := ⟨0, 1⟩
  let lastId := ((st1.streams stream_key).bind btreeLastId).getD ⟨0, 0⟩
  match resolveId ms seq lastId now with
  | none => (st1, .smallerThanLast)
  | some stream_id =>
    if stream_id.slt minId then (st1, .notGreaterThan0)
    else
      match st1.streams stream_key with
      | some btree =>
        match btreeLastId btree with
        | some last_id =>
          if stream_id.sle last_id then (st1, .smallerThanLast)
          else
            let entry := (btree.lookup stream_id).getD []
            let btree' := btreeInsert btree stream_id (insert_keys_and_values args entry)
            ({ st1 with streams := upd st1.streams stream_key btree' }, .ok stream_id)
        | none =>
          let entry := (btree.lookup stream_id).getD []
          let btree' := btreeInsert btree stream_id (insert_keys_and_values args entry)
          ({ st1 with streams := upd st1.streams stream_key btree' }, .ok stream_id)
      | none =>
        let btree' := [(stream_id, insert_keys_and_values args [])]
        ({ st1 with streams := upd st1.streams stream_key btree' }, .ok stream_id)

/-! ### LRANGE (`store.rs`) -/

/-- Wrapping `i128` arithmetic: reduce into `[-2^127, 2^127)`.  The only
place the source can overflow an `i128` is the `end += 1` step of `lrange`
(at `end = i128::MAX`); a release build wraps there (a debug build panics,
which differs from the claimed result just the same). -/
def wrapI128 (x : Int) : Int := ((x + 2 ^ 127) % 2 ^ 128) - 2 ^ 127

/-- The body of `Store::lrange` after the list lookup, operating on the
borrowed list: shift negative indices by the length, make the inclusive end
exclusive (`end += 1`, wrapping), clamp, and slice. -/
def lrange_core (l : List (List Nat)) (start0 end0 : Int) : List (List Nat) :=
  let len : Int := l.length
  let s1 := if start0 < 0 then start0 + len else start0
  let e1 := if end0 < 0 then end0 + len else end0
  let e2 := wrapI128 (e1 + 1)
  if s1 ≥ len then []
  else
    let s2 := if s1 < 0 then 0 else s1
    let e3 := if e2 ≥ len then len else e2
    if s2 > e3 then []
    else (l.take e3.toNat).drop s2.toNat

/-- `Store::lrange`: `KeyNotFound` for an absent list, otherwise the slice
computed by `lrange_core`. -/
def Store.lrange (st : Store) (key : List Nat) (start0 end0 : Int) :
    Except StoreError (List (List Nat)) :=
  match st.lists key with
  | none => .error .keyNotFound
  | some l => .ok (lrange_core l start0 end0)

/-- The slice the specification describes: `L[max(0,s') : min(len, e'+1)]`
with `s' = s + len` when `s < 0` (else `s`), `e' = e + len` when `e < 0`
(else `e`), on unbounded integers. -/
def lrangeSpec (l : List (List Nat)) (s e : Int) : List (List Nat) :=
  let len : Int := l.length
  let s' := if s < 0 then s + len else s
  let e' := if e < 0 then e + len else e
  (l.take (min len (e' + 1)).toNat).drop (max 0 s').toNat

/-! ### The command layer (`commands.rs`), the parts the claims touch. -/

/-- `handle_get`: map the engine result to the RESP reply — both
`KeyNotFound` and `KeyExpired` become the null bulk string. -/
def handle_get (st : Store) (key : List Nat) (now : Nat) : RedisType :=
  match st.get key now with
  | .ok v => .bulkString v
  | .error .keyExpired => .nullBulkString
  | .error .keyNotFound => .nullBulkString
  | .error _ => .simpleError (bytesOf ("ERR"))

/-- Reply of `handle_lpop` (given the already-parsed `amount`, default 1):
null bulk on `KeyNotFound` or empty result, single bulk for one element, an
array otherwise; a store-level panic propagates. -/
inductive LpopReply where
  | reply : RedisType → LpopReply
  | panic : LpopReply

/-- `handle_lpop` from `commands.rs`. -/
def handle_lpop (st : Store) (key : List Nat) (amount : Int) :
    Store × LpopReply :=
  match st.lpop key amount with
  | (st', .ok removed) =>
    if removed.isEmpty then (st', .reply .nullBulkString)
    else if removed.length = 1 then
      (st', .reply (.bulkString (removed.headD [])))
    else (st', .reply (.array (some (removed.map RedisType.bulkString))))
  | (st', .keyNotFound) => (st', .reply .nullBulkString)
  | (st', .panic) => (st', .panic)

/-- The invariant claimed in the specification: every key present in one of
the three value maps is tagged with that map's kind and absent from the
other two value maps. -/
def StoreInv (st : Store) : Prop :=
  ∀ K : List Nat,
    ((st.keys K).isSome →
      st.key_types K = some .key ∧ st.lists K = none ∧ st.streams K = none) ∧
    ((st.lists K).isSome →
      st.key_types K = some .list ∧ st.keys K = none ∧ st.streams K = none) ∧
    ((st.streams K).isSome →
      st.key_types K = some .stream ∧ st.keys K = none ∧ st.lists K = none)

/-- The invariant the code actually maintains: every key present in the
string map or the stream map, and every key holding a non-empty list, has
some entry in the type-tag map (the tag need not match, and several value
maps may hold the key at once). -/
def StoreWeakInv (st : Store) : Prop :=
  ∀ K : List Nat,
    ((st.keys K).isSome → (st.key_types K).isSome) ∧
    ((st.streams K).isSome → (st.key_types K).isSome) ∧
    (∀ l, st.lists K = some l → l ≠ [] → (st.key_types K).isSome)

/-- Entries of a stream map are in strictly increasing id order. -/
def strictSorted (m : StreamMap) : Prop :=
  List.Chain' StreamId.slt (m.map Prod.fst)

/-! ## Codec lemmas -/

/-- A buffer that is `pre ++ CRLF ++ rest` with no CRLF window inside `pre`
has its first CRLF exactly at `pre.length`. -/
theorem findCRLF_append (pre rest : List Nat) (h : hasCRLF pre = false) :
    findCRLF (pre ++ 13 :: 10 :: rest) = some pre.length := by
  induction pre with
  | nil => simp [findCRLF]
  | cons a pre ih =>
    unfold hasCRLF at h
    rw [List.cons_append]
    simp only [findCRLF]
    split at h
    · exact Bool.noConfusion h
    · rename_i hcond
      rw [if_neg, ih h]
      · simp
      · intro hc
        rcases pre with _ | ⟨b, t⟩
        · simp at hc
        · exact hcond (by simpa using hc)

/-- A list with no byte 13 has no CRLF window. -/
theorem hasCRLF_eq_false_of_no13 (l : List Nat) (h : ∀ b ∈ l, b ≠ 13) :
    hasCRLF l = false := by
  induction l with
  | nil => simp [hasCRLF]
  | cons a l ih =>
    unfold hasCRLF
    rw [if_neg]
    · exact ih (fun b hb => h b (List.mem_cons_of_mem a hb))
    · intro hc
      exact h a (List.mem_cons_self a l) hc.1

/-- `digitsRevFuel` with enough fuel computes the base-10 digits. -/
theorem digitsRevFuel_eq (fuel n : Nat) (h : n ≤ fuel) :
    digitsRevFuel fuel n = Nat.digits 10 n := by
  induction fuel generalizing n with
  | zero =>
    have h0 : n = 0 := by omega
    subst h0
    simp [digitsRevFuel]
  | succ f ihf =>
    by_cases hn : n = 0
    · subst hn; simp [digitsRevFuel]
    · simp only [digitsRevFuel, if_neg hn]
      have hdiv : n / 10 ≤ f := by
        have := Nat.div_lt_self (Nat.pos_of_ne_zero hn) (by norm_num : 1 < 10)
        omega
      rw [ihf _ hdiv]
      rw [Nat.digits_def' (by norm_num : 1 < 10) (Nat.pos_of_ne_zero hn)]

/-- `asciiOfNat` in terms of `Nat.digits`. -/
theorem asciiOfNat_eq (n : Nat) :
    asciiOfNat n =
      if n = 0 then [48] else ((Nat.digits 10 n).reverse.map (· + 48)) := by
  unfold asciiOfNat
  by_cases hn : n = 0
  · simp [hn]
  · rw [if_neg hn, if_neg hn, digitsRevFuel_eq n n (Nat.le_refl n)]

/-- All bytes of `asciiOfNat n` are ASCII digits. -/
theorem asciiOfNat_mem (n : Nat) : ∀ b ∈ asciiOfNat n, 48 ≤ b ∧ b ≤ 57 := by
  intro b hb
  rw [asciiOfNat_eq] at hb
  split at hb
  · simp at hb; omega
  · simp only [List.mem_map, List.mem_reverse] at hb
    obtain ⟨d, hd, rfl⟩ := hb
    have := Nat.digits_lt_base (by norm_num) hd
    omega

/-- `asciiOfNat` is never empty. -/
theorem asciiOfNat_ne_nil (n : Nat) : asciiOfNat n ≠ [] := by
  rw [asciiOfNat_eq]
  split
  · simp
  · rename_i h
    simp only [ne_eq, List.map_eq_nil_iff, List.reverse_eq_nil_iff]
    exact Nat.digits_ne_nil_iff_ne_zero.mpr h

/-- Folding the digit-accumulation step over the reversed base-10 digits
recovers the number. -/
theorem foldl_digits (ds : List Nat) (acc : Nat) :
    (ds.reverse.map (· + 48)).foldl (fun acc b => acc * 10 + (b - 48)) acc =
      acc * 10 ^ ds.length + Nat.ofDigits 10 ds := by
  induction ds generalizing acc with
  | nil => simp [Nat.ofDigits]
  | cons d ds ih =>
    rw [List.reverse_cons, List.map_append, List.foldl_append]
    rw [ih acc]
    simp only [List.map_cons, List.map_nil, List.foldl_cons, List.foldl_nil,
      List.length_cons, Nat.ofDigits_cons]
    have h48 : d + 48 - 48 = d := by omega
    rw [h48]
    ring

/-- `parseUsize` inverts `asciiOfNat` below 2^64. -/
theorem parseUsize_asciiOfNat (n : Nat) (h : n < 2 ^ 64) :
    parseUsize (asciiOfNat n) = some n := by
  have hmem := asciiOfNat_mem n
  have hne := asciiOfNat_ne_nil n
  have hstrip : (if (asciiOfNat n).head? = some 43 then (asciiOfNat n).tail
      else asciiOfNat n) = asciiOfNat n := by
    rw [if_neg]
    intro hc
    rcases hv : asciiOfNat n with _ | ⟨b, t⟩
    · rw [hv] at hc; simp at hc
    · rw [hv] at hc
      simp at hc
      have hb := hmem b (by rw [hv]; exact List.mem_cons_self b t)
      omega
  unfold parseUsize
  simp only [hstrip]
  rw [if_neg hne]
  rw [if_pos]
  · have hfold : (asciiOfNat n).foldl (fun acc b => acc * 10 + (b - 48)) 0 = n := by
      rw [asciiOfNat_eq]
      split
      · rename_i h0; subst h0; rfl
      · rw [foldl_digits]
        simp [Nat.ofDigits_digits]
    simp only [hfold, if_pos h]
  · rw [List.all_eq_true]
    intro b hb
    have := hmem b hb
    simp only [Bool.and_eq_true, decide_eq_true_eq]
    omega

theorem drop_append_length (l₁ l₂ : List Nat) (n : Nat) :
    (l₁ ++ l₂).drop (l₁.length + n) = l₂.drop n := by
  induction l₁ with
  | nil => simp
  | cons a t ih =>
    rw [List.cons_append, List.length_cons]
    rw [show t.length + 1 + n = (t.length + n) + 1 by omega]
    rw [List.drop_succ_cons]
    exact ih

/-- The simple-string parser inverts the simple-string encoding, for any
tag byte that is not `\r` and content free of `\r` and `\n`. -/
theorem parse_simple_string_encode (tag : Nat) (s rest : List Nat)
    (htag : tag ≠ 13)
    (hs : ∀ b ∈ s, b ≠ 13 ∧ b ≠ 10) :
    parse_simple_string (tag :: (s ++ 13 :: 10 :: rest)) =
      .ok (.simpleString s) rest := by
  have hpre : hasCRLF (tag :: s) = false := by
    apply hasCRLF_eq_false_of_no13
    intro b hb
    rcases List.mem_cons.mp hb with rfl | hbs
    · exact htag
    · exact (hs b hbs).1
  have hfind : findCRLF (tag :: (s ++ 13 :: 10 :: rest)) =
      some (s.length + 1) := by
    have := findCRLF_append (tag :: s) rest hpre
    rw [List.cons_append] at this
    rw [this]
    simp
  unfold parse_simple_string
  rw [hfind]
  simp only
  rw [if_neg (by omega)]
  have hslice : (((tag :: (s ++ 13 :: 10 :: rest)).drop 1).take (s.length + 1 - 1)) = s := by
    rw [List.drop_succ_cons, List.drop_zero, Nat.add_sub_cancel]
    rw [List.take_append_of_le_length (Nat.le_refl _), List.take_length]
  rw [hslice]
  rw [if_neg]
  · have hdrop : (tag :: (s ++ 13 :: 10 :: rest)).drop (s.length + 1 + 2) = rest := by
      rw [show s.length + 1 + 2 = (s.length + 2) + 1 by omega, List.drop_succ_cons]
      rw [show (13 : Nat) :: 10 :: rest = [13, 10] ++ rest by rfl]
      rw [← List.append_assoc]
      rw [show s.length + 2 = (s ++ [13, 10]).length + 0 by simp]
      rw [drop_append_length]
      rfl
    rw [hdrop]
  · intro hc
    rw [List.any_eq_true] at hc
    obtain ⟨b, hb, hcond⟩ := hc
    have := hs b hb
    simp only [Bool.or_eq_true, beq_iff_eq] at hcond
    omega

/-- The simple-error parser inverts the simple-error encoding. -/
theorem parse_simple_error_encode (s rest : List Nat)
    (hs : ∀ b ∈ s, b ≠ 13 ∧ b ≠ 10) :
    parse_simple_error (45 :: (s ++ 13 :: 10 :: rest)) =
      .ok (.simpleError s) rest := by
  unfold parse_simple_error
  rw [parse_simple_string_encode 45 s rest (by omega) hs]

/-- The bulk-string parser accepts `$` + length digits + CRLF + content +
CRLF, generalized over the digit block. -/
theorem parse_bulk_string_pre (a s rest : List Nat)
    (hmem : ∀ b ∈ a, b ≠ 13)
    (hp : parseUsize a = some s.length)
    (h1 : hasCRLF s = false) :
    parse_bulk_string (36 :: (a ++ 13 :: 10 :: (s ++ 13 :: 10 :: rest))) =
      .ok (.bulkString s) rest := by
  have hpre : hasCRLF (36 :: a) = false := by
    apply hasCRLF_eq_false_of_no13
    intro b hb
    rcases List.mem_cons.mp hb with rfl | hbs
    · omega
    · exact hmem b hbs
  have hfind : findCRLF (36 :: (a ++ 13 :: 10 :: (s ++ 13 :: 10 :: rest))) =
      some (a.length + 1) := by
    have := findCRLF_append (36 :: a) (s ++ 13 :: 10 :: rest) hpre
    rw [List.cons_append] at this
    rw [this]
    simp
  have hdel : List.drop (a.length + 1)
      (36 :: (a ++ 13 :: 10 :: (s ++ 13 :: 10 :: rest))) =
      13 :: 10 :: (s ++ 13 :: 10 :: rest) := by
    rw [show a.length + 1 = a.length.succ by rfl, List.drop_succ_cons]
    rw [show a.length = a.length + 0 by omega, drop_append_length, List.drop_zero]
  have hdrop2 : List.drop (a.length + 1 + 2)
      (36 :: (a ++ 13 :: 10 :: (s ++ 13 :: 10 :: rest))) =
      s ++ 13 :: 10 :: rest := by
    rw [show a.length + 1 + 2 = (a.length + 2) + 1 by omega, List.drop_succ_cons]
    rw [drop_append_length]
    rfl
  have hlast : List.drop (a.length + 1 + 2 + s.length + 2)
      (36 :: (a ++ 13 :: 10 :: (s ++ 13 :: 10 :: rest))) = rest := by
    rw [show a.length + 1 + 2 + s.length + 2 = (a.length + (2 + s.length + 2)) + 1 by omega,
      List.drop_succ_cons, drop_append_length]
    rw [show 2 + s.length + 2 = (s.length + 2 + 1) + 1 by omega, List.drop_succ_cons]
    rw [show s.length + 2 + 1 = (s.length + 2) + 1 by omega, List.drop_succ_cons]
    rw [show s.length + 2 = s.length + 2 by rfl, drop_append_length]
    rfl
  have hsize : (((36 :: (a ++ 13 :: 10 :: (s ++ 13 :: 10 :: rest))).drop 1).take
      (a.length + 1 - 1)) = a := by
    rw [List.drop_succ_cons, List.drop_zero, Nat.add_sub_cancel]
    rw [List.take_append_of_le_length (Nat.le_refl _), List.take_length]
  unfold parse_bulk_string
  rw [hfind]
  simp only
  rw [if_neg (by omega)]
  rw [hsize, hp]
  simp only
  rw [if_neg (by rw [hdel]; simp)]
  rw [hdrop2, findCRLF_append s rest h1]
  simp only
  rw [if_neg (by omega)]
  rw [List.take_append_of_le_length (Nat.le_refl _), List.take_length, hlast]

/-- The bulk-string parser inverts the bulk-string encoding, for content
without a CRLF window and of `usize` length. -/
theorem parse_bulk_string_encode (s rest : List Nat)
    (h1 : hasCRLF s = false) (h2 : s.length < 2 ^ 64) :
    parse_bulk_string
      (36 :: (asciiOfNat s.length ++ 13 :: 10 :: (s ++ 13 :: 10 :: rest))) =
      .ok (.bulkString s) rest := by
  apply parse_bulk_string_pre
  · intro b hb
    have := asciiOfNat_mem s.length b hb
    omega
  · exact parseUsize_asciiOfNat s.length h2
  · exact h1

theorem wfList_mem (items : List RedisType) (h : wfList items = true) :
    ∀ v ∈ items, v.wf = true := by
  induction items with
  | nil => intro v hv; simp at hv
  | cons x xs ih =>
    intro v hv
    unfold wfList at h
    rw [Bool.and_eq_true] at h
    rcases List.mem_cons.mp hv with rfl | hvs
    · exact h.1
    · exact ih h.2 v hvs

theorem depthList_mem (items : List RedisType) :
    ∀ v ∈ items, v.depth ≤ depthList items := by
  induction items with
  | nil => intro v hv; simp at hv
  | cons x xs ih =>
    intro v hv
    unfold depthList
    rcases List.mem_cons.mp hv with rfl | hvs
    · exact Nat.le_max_left _ _
    · exact Nat.le_trans (ih v hvs) (Nat.le_max_right _ _)

/-- The header line of an array frame: `parse_array` consumes
`*<n>\r\n` and enters the element loop. -/
theorem parse_array_encode_header (f n : Nat) (body : List Nat)
    (hn : n < 2 ^ 64) :
    parse_array (f + 1) (42 :: (asciiOfNat n ++ 13 :: 10 :: body)) =
      parseElements f n body [] := by
  have hamem := asciiOfNat_mem n
  have hpre : hasCRLF (42 :: asciiOfNat n) = false := by
    apply hasCRLF_eq_false_of_no13
    intro b hb
    rcases List.mem_cons.mp hb with rfl | hbs
    · omega
    · have := hamem b hbs; omega
  have hfind : findCRLF (42 :: (asciiOfNat n ++ 13 :: 10 :: body)) =
      some ((asciiOfNat n).length + 1) := by
    have := findCRLF_append (42 :: asciiOfNat n) body hpre
    rw [List.cons_append] at this
    rw [this]
    simp
  have hsize : (((42 :: (asciiOfNat n ++ 13 :: 10 :: body)).drop 1).take
      ((asciiOfNat n).length + 1 - 1)) = asciiOfNat n := by
    rw [List.drop_succ_cons, List.drop_zero, Nat.add_sub_cancel]
    rw [List.take_append_of_le_length (Nat.le_refl _), List.take_length]
  have hbody : List.drop ((asciiOfNat n).length + 1 + 2)
      (42 :: (asciiOfNat n ++ 13 :: 10 :: body)) = body := by
    rw [show (asciiOfNat n).length + 1 + 2 = ((asciiOfNat n).length + 2) + 1 by omega,
      List.drop_succ_cons, drop_append_length]
    rfl
  simp only [parse_array]
  rw [hfind]
  simp only
  rw [if_neg (by omega)]
  rw [hsize, parseUsize_asciiOfNat n hn]
  simp only
  rw [hbody]
  rfl

/-- The four tag bytes of the element dispatch. -/
theorem parseValue_tag43 (fuel : Nat) (x : List Nat) :
    parseValue fuel (43 :: x) = parse_simple_string (43 :: x) := by
  show parseValueWith (parse_array fuel) (43 :: x) = _
  simp [parseValueWith]

theorem parseValue_tag45 (fuel : Nat) (x : List Nat) :
    parseValue fuel (45 :: x) = parse_simple_error (45 :: x) := by
  show parseValueWith (parse_array fuel) (45 :: x) = _
  simp [parseValueWith]

theorem parseValue_tag36 (fuel : Nat) (x : List Nat) :
    parseValue fuel (36 :: x) = parse_bulk_string (36 :: x) := by
  show parseValueWith (parse_array fuel) (36 :: x) = _
  simp [parseValueWith]

theorem parseValue_tag42 (fuel : Nat) (x : List Nat) :
    parseValue fuel (42 :: x) = parse_array fuel (42 :: x) := by
  show parseValueWith (parse_array fuel) (42 :: x) = _
  simp [parseValueWith]

/-- The element loop applied to the concatenated encodings of `items`,
assuming each element round-trips at fuel `f`. -/
theorem parseElements_encodeList (f : Nat) (items : List RedisType)
    (IH : ∀ v ∈ items, ∀ r : List Nat, parseValue f (v.encode ++ r) = .ok v r) :
    ∀ (acc : List RedisType) (rest : List Nat),
      parseElements f items.length (encodeList items ++ rest) acc =
        .ok (.array (some (acc.reverse ++ items))) rest := by
  induction items with
  | nil =>
    intro acc rest
    simp [encodeList, parseElements, parseElementsWith]
  | cons v vs ih =>
    intro acc rest
    have h1 : parseValue f (v.encode ++ (encodeList vs ++ rest)) =
        .ok v (encodeList vs ++ rest) :=
      IH v (List.mem_cons_self v vs) _
    rw [show encodeList (v :: vs) = v.encode ++ encodeList vs from rfl]
    rw [List.length_cons, List.append_assoc]
    rw [show parseElements f = parseElementsWith (parse_array f) from rfl]
    simp only [parseElementsWith]
    rw [show parseValueWith (parse_array f) = parseValue f from rfl]
    rw [h1]
    simp only
    rw [show parseElementsWith (parse_array f) = parseElements f from rfl]
    rw [ih (fun w hw r => IH w (List.mem_cons_of_mem v hw) r) (v :: acc) rest]
    simp

/-- Round trip at the element dispatch: for well-formed values and fuel
above the array nesting depth, decoding the encoding yields the value back
and consumes exactly the encoded bytes. -/
theorem parseValue_encode (fuel : Nat) (v : RedisType) (rest : List Nat)
    (hwf : v.wf = true) (hd : v.depth < fuel) :
    parseValue fuel (v.encode ++ rest) = .ok v rest := by
  induction fuel generalizing v rest with
  | zero => omega
  | succ f ih =>
    cases v with
    | simpleString s =>
      have hs : ∀ b ∈ s, b ≠ 13 ∧ b ≠ 10 := by
        intro b hb
        have := List.all_eq_true.mp hwf b hb
        simp only [Bool.and_eq_true, Bool.not_eq_eq_eq_not, Bool.not_true,
          beq_eq_false_iff_ne, ne_eq] at this
        exact this
      rw [show RedisType.encode (.simpleString s) ++ rest =
          43 :: (s ++ 13 :: 10 :: rest) by simp [RedisType.encode]]
      rw [parseValue_tag43]
      exact parse_simple_string_encode 43 s rest (by omega) hs
    | simpleError s =>
      have hs : ∀ b ∈ s, b ≠ 13 ∧ b ≠ 10 := by
        intro b hb
        have := List.all_eq_true.mp hwf b hb
        simp only [Bool.and_eq_true, Bool.not_eq_eq_eq_not, Bool.not_true,
          beq_eq_false_iff_ne, ne_eq] at this
        exact this
      rw [show RedisType.encode (.simpleError s) ++ rest =
          45 :: (s ++ 13 :: 10 :: rest) by simp [RedisType.encode]]
      rw [parseValue_tag45]
      exact parse_simple_error_encode s rest hs
    | bulkString s =>
      unfold RedisType.wf at hwf
      rw [Bool.and_eq_true] at hwf
      have hcrlf : hasCRLF s = false := by
        have := hwf.1
        simp only [Bool.not_eq_eq_eq_not, Bool.not_true] at this
        exact this
      have hlen : s.length < 2 ^ 64 := of_decide_eq_true hwf.2
      rw [show RedisType.encode (.bulkString s) ++ rest =
          36 :: (asciiOfNat s.length ++ 13 :: 10 :: (s ++ 13 :: 10 :: rest)) by
            simp [RedisType.encode]]
      rw [parseValue_tag36]
      exact parse_bulk_string_encode s rest hcrlf hlen
    | integer n => simp [RedisType.wf] at hwf
    | nullBulkString => simp [RedisType.wf] at hwf
    | array o =>
      cases o with
      | none => simp [RedisType.wf] at hwf
      | some items =>
        unfold RedisType.wf at hwf
        rw [Bool.and_eq_true] at hwf
        have hlen : items.length < 2 ^ 64 := of_decide_eq_true hwf.1
        have hdl : depthList items < f := by
          have : RedisType.depth (.array (some items)) = 1 + depthList items := rfl
          omega
        rw [show RedisType.encode (.array (some items)) ++ rest =
            42 :: (asciiOfNat items.length ++ 13 :: 10 :: (encodeList items ++ rest)) by
              simp [RedisType.encode]]
        rw [parseValue_tag42]
        rw [parse_array_encode_header f items.length _ hlen]
        rw [parseElements_encodeList f items
          (fun w hw r => ih w r (wfList_mem items hwf.2 w hw)
            (Nat.lt_of_le_of_lt (depthList_mem items w hw) hdl)) [] rest]
        simp

/-! ## Claims about the codec -/

/-- C1 counterexample: the claim includes integers, but the decoder has no
branch for the `:` tag — the element dispatch falls through to the default
arm, yields `NullBulkString` and consumes no bytes, so
`decode(encode(Integer 5))` is not `Integer 5` and consumes nothing. -/
theorem c1_integer_not_roundtripped :
    parseValue 1 ((RedisType.integer 5).encode ++ []) =
      .ok .nullBulkString ((RedisType.integer 5).encode ++ [])
    ∧ RedisType.integer 5 ≠ RedisType.nullBulkString :=
  ⟨rfl, fun h => RedisType.noConfusion h⟩

/-- C1 (amended): for every RESP value built without `Integer` nodes and
without nulls, whose simple-string/simple-error payloads contain no `\r` or
`\n` byte, whose bulk-string payloads contain no CRLF window, and whose
lengths fit in a `usize` (that is, `v.wf`), decoding the encoder's bytes at
any fuel above the array-nesting depth yields `v` again and consumes
exactly the produced bytes, leaving the rest of the buffer intact. -/
theorem c1_roundtrip_wf (v : RedisType) (rest : List Nat) (fuel : Nat)
    (hwf : v.wf = true) (hfuel : v.depth < fuel) :
    parseValue fuel (v.encode ++ rest) = .ok v rest :=
  parseValue_encode fuel v rest hwf hfuel

/-- Witness for C1 at a concrete nested array with trailing bytes. -/
theorem c1_roundtrip_wf_witness :
    (RedisType.array (some [RedisType.bulkString [104, 105],
      RedisType.array (some [RedisType.simpleString [79, 75]])])).wf = true
    ∧ (RedisType.array (some [RedisType.bulkString [104, 105],
      RedisType.array (some [RedisType.simpleString [79, 75]])])).depth < 3
    ∧ parseValue 3 ((RedisType.array (some [RedisType.bulkString [104, 105],
        RedisType.array (some [RedisType.simpleString [79, 75]])])).encode ++ [88]) =
      .ok (RedisType.array (some [RedisType.bulkString [104, 105],
        RedisType.array (some [RedisType.simpleString [79, 75]])])) [88] :=
  ⟨rfl, by decide,
    c1_roundtrip_wf
      (RedisType.array (some [RedisType.bulkString [104, 105],
        RedisType.array (some [RedisType.simpleString [79, 75]])]))
      [88] 3 rfl (by decide)⟩

/-- C3: the decoder rejects both null framings with `InvalidFormat`
(`"-1".parse::<usize>()` fails), although the repository's own test
`test_parse_array_null_array` expects `*-1\r\n` to decode to the null
array.  `[36,45,49,13,10]` is `$-1\r\n` and `[42,45,49,13,10]` is
`*-1\r\n`. -/
theorem c3_null_framings_rejected :
    parse_bulk_string [36, 45, 49, 13, 10] = .err [36, 45, 49, 13, 10]
    ∧ parse_resp 2 [42, 45, 49, 13, 10] = .err [42, 45, 49, 13, 10] :=
  ⟨rfl, rfl⟩

/-- C4 counterexample: on `*1\r\n` (an incomplete frame) the decoder reads
`buffer[0]` past the end and panics, and on `*1\r\n$2\r\nabc\r\n` (no
complete value — the bulk length does not match) it fails only after the
four header bytes `*1\r\n` have been consumed. -/
theorem c4_incomplete_input_panics_and_consumes :
    parse_resp 2 [42, 49, 13, 10] = .panic
    ∧ parse_resp 2 [42, 49, 13, 10, 36, 50, 13, 10, 97, 98, 99, 13, 10] =
        .err [36, 50, 13, 10, 97, 98, 99, 13, 10] :=
  ⟨rfl, rfl⟩

/-- Every `Ok` of `parse_simple_string` carries a simple string. -/
theorem parse_simple_string_ok_shape (buffer : List Nat) (v : RedisType)
    (r : List Nat) (h : parse_simple_string buffer = .ok v r) :
    ∃ c, v = .simpleString c := by
  unfold parse_simple_string at h
  split at h
  · exact PR.noConfusion h
  · split at h
    · exact PR.noConfusion h
    · split at h
      · exact PR.noConfusion h
      · exact ⟨_, (PR.ok.inj h).1.symm⟩

/-- `parse_simple_string` fails without consuming bytes. -/
theorem parse_simple_string_err (buffer r : List Nat)
    (h : parse_simple_string buffer = .err r) : r = buffer := by
  unfold parse_simple_string at h
  split at h
  · exact (PR.err.inj h).symm
  · split at h
    · exact PR.noConfusion h
    · split at h
      · exact (PR.err.inj h).symm
      · exact PR.noConfusion h

/-- `parse_simple_error` fails without consuming bytes. -/
theorem parse_simple_error_err (buffer r : List Nat)
    (h : parse_simple_error buffer = .err r) : r = buffer := by
  unfold parse_simple_error at h
  cases heq : parse_simple_string buffer with
  | ok v r' =>
    rw [heq] at h
    obtain ⟨c, rfl⟩ := parse_simple_string_ok_shape buffer v r' heq
    exact PR.noConfusion h
  | err b =>
    rw [heq] at h
    rw [parse_simple_string_err buffer b heq] at h
    exact (PR.err.inj h).symm
  | panic => rw [heq] at h; exact PR.noConfusion h
  | noFuel => rw [heq] at h; exact PR.noConfusion h

/-- `parse_bulk_string` fails without consuming bytes. -/
theorem parse_bulk_string_err (buffer r : List Nat)
    (h : parse_bulk_string buffer = .err r) : r = buffer := by
  unfold parse_bulk_string at h
  split at h
  · exact (PR.err.inj h).symm
  · split at h
    · exact PR.noConfusion h
    · split at h
      · exact (PR.err.inj h).symm
      · split at h
        · exact (PR.err.inj h).symm
        · split at h
          · exact (PR.err.inj h).symm
          · split at h
            · exact (PR.err.inj h).symm
            · exact PR.noConfusion h

/-- For a first byte other than `\r`, the first CRLF is not at position 0. -/
theorem findCRLF_cons_pos (b : Nat) (buffer : List Nat) (hb : b ≠ 13) :
    findCRLF (b :: buffer) = none ∨ ∃ e, findCRLF (b :: buffer) = some (e + 1) := by
  unfold findCRLF
  rw [if_neg (fun hc => hb hc.1)]
  cases findCRLF buffer with
  | none => exact Or.inl rfl
  | some e => exact Or.inr ⟨e, rfl⟩

/-- `parse_simple_string` panics only when the buffer starts with CRLF. -/
theorem parse_simple_string_no_panic (b : Nat) (buffer : List Nat)
    (hb : b ≠ 13) : parse_simple_string (b :: buffer) ≠ .panic := by
  unfold parse_simple_string
  rcases findCRLF_cons_pos b buffer hb with hE | ⟨e, hE⟩ <;> rw [hE]
  · simp
  · simp only
    rw [if_neg (by omega)]
    split <;> simp

/-- `parse_bulk_string` panics only when the buffer starts with CRLF. -/
theorem parse_bulk_string_no_panic (b : Nat) (buffer : List Nat)
    (hb : b ≠ 13) : parse_bulk_string (b :: buffer) ≠ .panic := by
  unfold parse_bulk_string
  rcases findCRLF_cons_pos b buffer hb with hE | ⟨e, hE⟩ <;> rw [hE]
  · simp
  · simp only
    rw [if_neg (by omega)]
    split
    · simp
    · split
      · simp
      · split
        · simp
        · split <;> simp

/-- C4 (amended): the single-frame parsers (simple string, simple error,
bulk string) return a parse failure without consuming any bytes, and they
cannot panic when the buffer starts with their tag byte; the array parser,
however, consumes the `*<n>\r\n` header before parsing elements, so a
failing element leaves the header consumed, and a truncated buffer can make
it panic (see the counterexample). -/
theorem c4_leaf_parsers_fail_safely (buffer r : List Nat) :
    (parse_simple_string buffer = .err r → r = buffer)
    ∧ (parse_simple_error buffer = .err r → r = buffer)
    ∧ (parse_bulk_string buffer = .err r → r = buffer)
    ∧ (∀ b rest, buffer = b :: rest → b ≠ 13 →
        parse_simple_string buffer ≠ .panic ∧ parse_bulk_string buffer ≠ .panic) :=
  ⟨parse_simple_string_err buffer r,
   parse_simple_error_err buffer r,
   parse_bulk_string_err buffer r,
   fun b rest hbuf hb => by
    subst hbuf
    exact ⟨parse_simple_string_no_panic b rest hb,
      parse_bulk_string_no_panic b rest hb⟩⟩

/-- Witness for C4 (amended): the bulk parser rejects `$5\r\nhello` (no
trailing CRLF) leaving the buffer intact, and cannot panic there. -/
theorem c4_leaf_parsers_fail_safely_witness :
    ([36, 53, 13, 10, 104, 101, 108, 108, 111] : List Nat) =
      [36, 53, 13, 10, 104, 101, 108, 108, 111]
    ∧ parse_simple_string [36, 53, 13, 10, 104, 101, 108, 108, 111] ≠ .panic :=
  ⟨(c4_leaf_parsers_fail_safely
      [36, 53, 13, 10, 104, 101, 108, 108, 111]
      [36, 53, 13, 10, 104, 101, 108, 108, 111]).2.2.1 rfl,
   ((c4_leaf_parsers_fail_safely
      [36, 53, 13, 10, 104, 101, 108, 108, 111]
      []).2.2.2 36 [53, 13, 10, 104, 101, 108, 108, 111] rfl (by decide)).1⟩

/-! ## Claims about the data engine -/

theorem upd_eval {V : Type} (m : List Nat → Option V) (k k' : List Nat) (v : V) :
    upd m k v k' = if k' = k then some v else m k' := rfl

theorem del_eval {V : Type} (m : List Nat → Option V) (k k' : List Nat) :
    del m k k' = if k' = k then none else m k' := rfl

/-- C7: the claim says the drain index never exceeds the list length, but
`Store::lpop` passes `amount as usize` to `drain(..)` unclamped: on the
one-element list at key `[107]`, `LPOP` with amount 2 drains out of range
and panics (`drain(..2)` on a `Vec` of length 1), in the command layer too;
the `KeyNotFound` half of the claim does hold on the empty store. -/
theorem c7_lpop_overdrain_panics :
    ((Store.new.rpush [107] [[97]]).1.lpop [107] 2).2 = LpopResult.panic
    ∧ (handle_lpop (Store.new.rpush [107] [[97]]).1 [107] 2).2 = LpopReply.panic
    ∧ (Store.new.lpop [107] 1).2 = LpopResult.keyNotFound :=
  ⟨rfl, rfl, rfl⟩

/-- C8 counterexample: a key stored with absolute expiry 5, read at
`now = 5`, is NOT treated as expired — the code compares `expiry < now`
strictly, so the stored value is returned and the reply is the bulk string,
not the null bulk string the claim requires for `expiry ≤ now`. -/
theorem c8_expiry_equal_now_not_expired :
    (Store.new.set_with_expiry [107] [118] (some 5) 0).get [107] 5 =
      Except.ok [118]
    ∧ handle_get (Store.new.set_with_expiry [107] [118] (some 5) 0) [107] 5 =
      RedisType.bulkString [118] :=
  ⟨rfl, rfl⟩

/-- C8 (amended): with a stored absolute expiry, a GET at time `now` with
`expiry < now` (strictly) reports the key as deleted and the command layer
replies with the null bulk string, while a GET with `expiry ≥ now` —
including `expiry = now` exactly — returns the stored value. -/
theorem c8_get_expiry_strict (st : Store) (key v : List Nat) (exp now : Nat)
    (hst : st.keys key = some ⟨v, some exp⟩) :
    (exp < now →
      st.get key now = .error .keyExpired
      ∧ handle_get st key now = .nullBulkString)
    ∧ (now ≤ exp →
      st.get key now = .ok v
      ∧ handle_get st key now = .bulkString v) := by
  constructor <;> intro h
  · have hget : st.get key now = .error .keyExpired := by
      unfold Store.get
      rw [hst]
      simp only
      rw [if_pos h]
    refine ⟨hget, ?_⟩
    unfold handle_get
    rw [hget]
  · have hget : st.get key now = .ok v := by
      unfold Store.get
      rw [hst]
      simp only
      rw [if_neg (by omega)]
    refine ⟨hget, ?_⟩
    unfold handle_get
    rw [hget]

/-- Witness for C8 at expiry 10: expired at 11, alive at 10 and 3. -/
theorem c8_get_expiry_strict_witness :
    (Store.new.set_with_expiry [107] [118] (some 10) 0).keys [107] =
      some ⟨[118], some 10⟩
    ∧ ((Store.new.set_with_expiry [107] [118] (some 10) 0).get [107] 11 =
        .error .keyExpired
      ∧ handle_get (Store.new.set_with_expiry [107] [118] (some 10) 0) [107] 11 =
        .nullBulkString) :=
  ⟨rfl, (c8_get_expiry_strict (Store.new.set_with_expiry [107] [118] (some 10) 0)
    [107] [118] 10 11 rfl).1 (by omega)⟩

/-- C10: `Store::xadd` writes the `stream` type tag before validating the
id.  A rejected XADD (explicit id `0-0`, refused with
`StreamIdNotGreaterThan0`) on a previously absent key therefore leaves the
tag behind: TYPE reports `stream` although no stream entry exists — the
error branch is not atomic. -/
theorem c10_xadd_error_sets_type_tag (st : Store) (key : List Nat)
    (now : Nat) (args : List RedisType)
    (h1 : st.key_types key = none) (h2 : st.streams key = none) :
    (st.xadd key (some 0) (some 0) now args).2 = .notGreaterThan0
    ∧ (st.xadd key (some 0) (some 0) now args).1.key_types key = some .stream
    ∧ (st.xadd key (some 0) (some 0) now args).1.streams key = none
    ∧ (st.xadd key (some 0) (some 0) now args).1.get_type key =
        bytesOf ("stream") := by
  have hx : st.xadd key (some 0) (some 0) now args =
      ({ st with key_types := upd st.key_types key .stream }, .notGreaterThan0) := by
    unfold Store.xadd
    simp only [resolveId]
    rw [if_pos (by unfold StreamId.slt; right; exact ⟨rfl, Nat.zero_lt_one⟩)]
  rw [hx]
  refine ⟨rfl, by simp [upd], h2, ?_⟩
  unfold Store.get_type
  simp [upd]

/-- Witness for C10 on the empty store. -/
theorem c10_xadd_error_sets_type_tag_witness :
    (Store.new.key_types [107] = none ∧ Store.new.streams [107] = none)
    ∧ (Store.new.xadd [107] (some 0) (some 0) 0 []).2 = .notGreaterThan0
    ∧ (Store.new.xadd [107] (some 0) (some 0) 0 []).1.key_types [107] =
        some .stream
    ∧ (Store.new.xadd [107] (some 0) (some 0) 0 []).1.streams [107] = none
    ∧ (Store.new.xadd [107] (some 0) (some 0) 0 []).1.get_type [107] =
        bytesOf ("stream") :=
  ⟨⟨rfl, rfl⟩, c10_xadd_error_sets_type_tag Store.new [107] 0 [] rfl rfl⟩

/-- C9 counterexample: key `[107]` has two registered waiters — the first
one dead (its receiver dropped), the second alive — and one element `[120]`
is pushed.  The claim says the notifier loops to the next waiter, so the
alive waiter would receive `[key, element]`; but the code tries only the
head waiter: nothing is delivered, the element is dropped from the list,
and the alive waiter is still queued. -/
theorem c9_dead_waiter_element_lost :
    (((Store.new.register_waiting_client [107] ⟨0, false⟩).register_waiting_client
        [107] ⟨1, true⟩).rpush [107] [[120]]).2.2 = none
    ∧ (((Store.new.register_waiting_client [107] ⟨0, false⟩).register_waiting_client
        [107] ⟨1, true⟩).rpush [107] [[120]]).1.lists [107] = some []
    ∧ (((Store.new.register_waiting_client [107] ⟨0, false⟩).register_waiting_client
        [107] ⟨1, true⟩).rpush [107] [[120]]).1.blpop_waiting_queue [107] =
        some [⟨1, true⟩] :=
  ⟨rfl, rfl, rfl⟩

/-- C9 (amended): the notifier dequeues exactly one waiter per push.  With
waiters `c :: cs` queued and a non-empty list `v :: restList`, a live head
waiter receives `[key, v]` and the element is removed, the other waiters
remaining registered; a dead head waiter makes the notifier drop the popped
element — it is not returned to the list and NOT offered to the next
waiter (no loop occurs), only the empty-queue cleanup runs. -/
theorem c9_notify_single_waiter (st : Store) (key v : List Nat)
    (restList : List (List Nat)) (c : WaitingClient) (cs : List WaitingClient)
    (hq : st.blpop_waiting_queue key = some (c :: cs))
    (hl : st.lists key = some (v :: restList)) :
    (c.alive = true →
      (st.notify_first_waiting_client key).2 =
        some (c.identifier,
          RedisType.array (some [RedisType.bulkString key, RedisType.bulkString v]))
      ∧ (st.notify_first_waiting_client key).1.lists key = some restList
      ∧ (st.notify_first_waiting_client key).1.blpop_waiting_queue key = some cs)
    ∧ (c.alive = false →
      (st.notify_first_waiting_client key).2 = none
      ∧ (st.notify_first_waiting_client key).1.lists key = some restList
      ∧ (st.notify_first_waiting_client key).1.blpop_waiting_queue key =
          (if cs.isEmpty then none else some cs)) := by
  rcases c with ⟨cid, al⟩
  unfold Store.notify_first_waiting_client
  rw [hq, hl]
  cases al
  · refine ⟨fun h => absurd h (by simp), fun _ => ?_⟩
    cases cs with
    | nil => exact ⟨rfl, by simp [upd], by simp [del, upd]⟩
    | cons a t => exact ⟨rfl, by simp [upd], by simp [upd]⟩
  · refine ⟨fun _ => ⟨rfl, by simp [upd], by simp [upd]⟩,
      fun h => absurd h (by simp)⟩

/-- Witness for C9: a single live waiter receives the pushed element. -/
theorem c9_notify_single_waiter_witness :
    ((Store.new.lpush [107] [[120]]).1.register_waiting_client [107]
        ⟨5, true⟩).blpop_waiting_queue [107] = some [⟨5, true⟩]
    ∧ ((Store.new.lpush [107] [[120]]).1.register_waiting_client [107]
        ⟨5, true⟩).lists [107] = some [[120]]
    ∧ ((((Store.new.lpush [107] [[120]]).1.register_waiting_client [107]
          ⟨5, true⟩).notify_first_waiting_client [107]).2 =
        some (5, RedisType.array (some
          [RedisType.bulkString [107], RedisType.bulkString [120]]))
      ∧ (((Store.new.lpush [107] [[120]]).1.register_waiting_client [107]
          ⟨5, true⟩).notify_first_waiting_client [107]).1.lists [107] = some []
      ∧ (((Store.new.lpush [107] [[120]]).1.register_waiting_client [107]
          ⟨5, true⟩).notify_first_waiting_client [107]).1.blpop_waiting_queue
          [107] = some []) :=
  ⟨rfl, rfl,
    (c9_notify_single_waiter
      ((Store.new.lpush [107] [[120]]).1.register_waiting_client [107] ⟨5, true⟩)
      [107] [120] [] ⟨5, true⟩ [] rfl rfl).1 rfl⟩

/-- C2 counterexample: after `RPUSH k [a]` the claimed invariant holds, but
a following `SET k v` retags the key as `string` and stores the string
value WITHOUT removing the key from the list map, so the key is now held by
two value maps and the tag no longer identifies the only holder. -/
theorem c2_set_breaks_type_invariant :
    StoreInv (Store.new.rpush [107] [[97]]).1
    ∧ ¬ StoreInv ((Store.new.rpush [107] [[97]]).1.set_with_expiry
        [107] [118] none 0) := by
  have hst : (Store.new.rpush [107] [[97]]).1 =
      ⟨upd (fun _ => none) [107] .list, fun _ => none, fun _ => none,
        upd (fun _ => none) [107] [[97]], fun _ => none⟩ := rfl
  constructor
  · rw [hst]
    intro K
    by_cases hK : K = [107]
    · subst hK
      exact ⟨fun h => Bool.noConfusion h, fun _ => ⟨rfl, rfl, rfl⟩,
        fun h => Bool.noConfusion h⟩
    · refine ⟨fun h => Bool.noConfusion h, fun h => ?_, fun h => Bool.noConfusion h⟩
      have h' : ((upd (fun _ => none) [107] [[97]] :
          List Nat → Option (List (List Nat))) K).isSome = true := h
      rw [upd_eval, if_neg hK] at h'
      exact Bool.noConfusion h'
  · intro h
    have h2 := (h [107]).2.1 (by rw [hst]; simp [Store.set_with_expiry, upd])
    obtain ⟨_, hkeys, _⟩ := h2
    rw [hst] at hkeys
    simp [Store.set_with_expiry, upd] at hkeys

/-- The fields of the store after `xadd`: the tag map gains `stream` at the
key, the string and list maps are untouched, and the stream map changes at
most at the key. -/
theorem xadd_fields (st : Store) (key : List Nat) (seq ms : Option Nat)
    (now : Nat) (args : List RedisType) :
    (st.xadd key seq ms now args).1.key_types = upd st.key_types key .stream
    ∧ (st.xadd key seq ms now args).1.keys = st.keys
    ∧ (st.xadd key seq ms now args).1.lists = st.lists
    ∧ ∀ K, K ≠ key → (st.xadd key seq ms now args).1.streams K = st.streams K := by
  refine ⟨?_, ?_, ?_, fun K hK => ?_⟩
  · unfold Store.xadd; dsimp only; repeat' split
    all_goals rfl
  · unfold Store.xadd; dsimp only; repeat' split
    all_goals rfl
  · unfold Store.xadd; dsimp only; repeat' split
    all_goals rfl
  · unfold Store.xadd; dsimp only; repeat' split
    all_goals first
      | rfl
      | (change (upd st.streams key _) K = st.streams K
         rw [upd_eval, if_neg hK])

/-- `notify_first_waiting_client` preserves the weak invariant. -/
theorem weakInv_notify (st : Store) (h : StoreWeakInv st) (key : List Nat) :
    StoreWeakInv (st.notify_first_waiting_client key).1 := by
  unfold Store.notify_first_waiting_client
  cases hq : st.blpop_waiting_queue key with
  | none => exact h
  | some q =>
    cases hl : st.lists key with
    | none => exact h
    | some list =>
      cases list with
      | nil => exact h
      | cons v restList =>
        cases q with
        | nil => exact h
        | cons c cs =>
          have hcore : StoreWeakInv { st with
              lists := upd st.lists key restList,
              blpop_waiting_queue := upd st.blpop_waiting_queue key cs } := by
            intro K
            obtain ⟨h1, h2, h3⟩ := h K
            refine ⟨h1, h2, fun l hl2 hne => ?_⟩
            by_cases hK : K = key
            · subst hK
              exact h3 _ hl (by simp)
            · have hl3 : st.lists K = some l := by
                have hup : (upd st.lists key restList) K = some l := hl2
                rwa [upd_eval, if_neg hK] at hup
              exact h3 l hl3 hne
          rcases c with ⟨cid, al⟩
          cases al
          · cases cs with
            | nil => exact hcore
            | cons a t => exact hcore
          · exact hcore

/-- A store obtained by setting the list-map entry at `key` and the `list`
type tag satisfies the weak invariant whenever the original did. -/
theorem weakInv_push_core (st : Store) (h : StoreWeakInv st) (key : List Nat)
    (newList : List (List Nat)) :
    StoreWeakInv { st with
      key_types := upd st.key_types key .list,
      lists := upd st.lists key newList } := by
  intro K
  obtain ⟨h1, h2, h3⟩ := h K
  by_cases hK : K = key
  · subst hK
    refine ⟨fun _ => ?_, fun _ => ?_, fun l _ _ => ?_⟩ <;> simp [upd]
  · refine ⟨fun hs => ?_, fun hs => ?_, fun l hl hne => ?_⟩ <;>
      dsimp only at *
    · rw [upd_eval, if_neg hK]
      exact h1 hs
    · rw [upd_eval, if_neg hK]
      exact h2 hs
    · rw [upd_eval, if_neg hK]
      rw [upd_eval, if_neg hK] at hl
      exact h3 l hl hne

/-- C2 (amended): every engine operation preserves the weak invariant: any
key present in the string map or the stream map, and any key holding a
non-empty list, has an entry in the type-tag map.  (The claimed stronger
invariant — the tag names the unique holding map — is broken by SET on a
list key, see the counterexample.) -/
theorem c2_weak_invariant_preserved (st : Store) (h : StoreWeakInv st) :
    (∀ key value expiry now,
      StoreWeakInv (st.set_with_expiry key value expiry now))
    ∧ (∀ key values, StoreWeakInv (st.rpush key values).1)
    ∧ (∀ key values, StoreWeakInv (st.lpush key values).1)
    ∧ (∀ key amount, StoreWeakInv (st.lpop key amount).1)
    ∧ (∀ key, StoreWeakInv (st.lpop_for_blpop key).1)
    ∧ (∀ key c, StoreWeakInv (st.register_waiting_client key c))
    ∧ (∀ key cid, StoreWeakInv (st.remove_waiting_client key cid))
    ∧ (∀ key, StoreWeakInv (st.notify_first_waiting_client key).1)
    ∧ (∀ key seq ms now args, StoreWeakInv (st.xadd key seq ms now args).1) := by
  refine ⟨?_, ?_, ?_, ?_, ?_, ?_, ?_, ?_, ?_⟩
  · -- SET
    intro key value expiry now K
    obtain ⟨h1, h2, h3⟩ := h K
    by_cases hK : K = key
    · subst hK
      refine ⟨fun _ => ?_, fun _ => ?_, fun l _ _ => ?_⟩ <;> simp [Store.set_with_expiry, upd]
    · refine ⟨fun hs => ?_, fun hs => ?_, fun l hl hne => ?_⟩ <;>
        dsimp only [Store.set_with_expiry] at *
      · rw [upd_eval, if_neg hK]
        rw [upd_eval, if_neg hK] at hs
        exact h1 hs
      · rw [upd_eval, if_neg hK]
        exact h2 hs
      · rw [upd_eval, if_neg hK]
        exact h3 l hl hne
  · -- RPUSH
    intro key values
    exact weakInv_notify _ (weakInv_push_core st h key _) key
  · -- LPUSH
    intro key values
    exact weakInv_notify _ (weakInv_push_core st h key _) key
  · -- LPOP
    intro key amount K
    obtain ⟨h1, h2, h3⟩ := h K
    have hcore : StoreWeakInv { st with
        lists := upd st.lists key ((st.lists key).getD []) } := by
      intro K2
      obtain ⟨g1, g2, g3⟩ := h K2
      refine ⟨g1, g2, fun l hl hne => ?_⟩
      by_cases hK2 : K2 = key
      · subst hK2
        have hl2 : (upd st.lists K2 ((st.lists K2).getD [])) K2 = some l := hl
        rw [upd_eval, if_pos rfl] at hl2
        cases hold : st.lists K2 with
        | none => rw [hold] at hl2; simp at hl2; subst hl2; exact absurd rfl hne
        | some l0 =>
          rw [hold] at hl2
          simp at hl2
          subst hl2
          exact g3 l0 hold hne
      · have hl2 : (upd st.lists key ((st.lists key).getD [])) K2 = some l := hl
        rw [upd_eval, if_neg hK2] at hl2
        exact g3 l hl2 hne
    have hdrop : StoreWeakInv { st with
        lists := upd (upd st.lists key ((st.lists key).getD [])) key
          (((st.lists key).getD []).drop (amount % (2 : Int) ^ 64).toNat) } := by
      intro K2
      obtain ⟨g1, g2, g3⟩ := h K2
      refine ⟨g1, g2, fun l hl hne => ?_⟩
      by_cases hK2 : K2 = key
      · subst hK2
        have hl2 : (upd (upd st.lists K2 ((st.lists K2).getD [])) K2
            (((st.lists K2).getD []).drop (amount % (2 : Int) ^ 64).toNat)) K2 = some l := hl
        rw [upd_eval, if_pos rfl] at hl2
        cases hold : st.lists K2 with
        | none =>
          rw [hold] at hl2
          simp at hl2
          subst hl2
          exact absurd rfl hne
        | some l0 =>
          rw [hold] at hl2
          simp at hl2
          have hne0 : l0 ≠ [] := by
            intro hc
            subst hc
            simp at hl2
            exact hne hl2
          exact g3 l0 hold hne0
      · have hl2 : (upd (upd st.lists key ((st.lists key).getD [])) key
            (((st.lists key).getD []).drop (amount % (2 : Int) ^ 64).toNat)) K2 = some l := hl
        rw [upd_eval, if_neg hK2, upd_eval, if_neg hK2] at hl2
        exact g3 l hl2 hne
    unfold Store.lpop
    dsimp only
    split
    · exact hcore K
    · split
      · exact hdrop K
      · exact hcore K
  · -- lpop_for_blpop
    intro key K
    unfold Store.lpop_for_blpop
    cases hl : st.lists key with
    | none => exact h K
    | some list =>
      cases list with
      | nil => exact h K
      | cons v t =>
        obtain ⟨h1, h2, h3⟩ := h K
        refine ⟨h1, h2, fun l hl2 hne => ?_⟩
        by_cases hK : K = key
        · subst hK
          exact h3 _ hl (by simp)
        · have hl3 : (upd st.lists key t) K = some l := hl2
          rw [upd_eval, if_neg hK] at hl3
          exact h3 l hl3 hne
  · -- register_waiting_client
    intro key c K
    exact h K
  · -- remove_waiting_client
    intro key cid K
    unfold Store.remove_waiting_client
    cases st.blpop_waiting_queue key with
    | none => exact h K
    | some q =>
      dsimp only
      split
      · exact h K
      · exact h K
  · -- notify
    intro key
    exact weakInv_notify st h key
  · -- XADD
    intro key seq ms now args K
    obtain ⟨hkt, hkeys, hlists, hstreams⟩ := xadd_fields st key seq ms now args
    obtain ⟨h1, h2, h3⟩ := h K
    by_cases hK : K = key
    · subst hK
      have htag : (st.xadd K seq ms now args).1.key_types K = some .stream := by
        rw [hkt, upd_eval, if_pos rfl]
      refine ⟨fun _ => ?_, fun _ => ?_, fun l _ _ => ?_⟩ <;> simp [htag]
    · have htag : (st.xadd key seq ms now args).1.key_types K = st.key_types K := by
        rw [hkt, upd_eval, if_neg hK]
      refine ⟨fun hs => ?_, fun hs => ?_, fun l hl hne => ?_⟩
      · rw [htag]
        rw [hkeys] at hs
        exact h1 hs
      · rw [htag]
        rw [hstreams K hK] at hs
        exact h2 hs
      · rw [htag]
        rw [hlists] at hl
        exact h3 l hl hne

/-- Witness for C2: the weak invariant holds on the empty store and is kept
by a SET. -/
theorem c2_weak_invariant_preserved_witness :
    StoreWeakInv Store.new
    ∧ StoreWeakInv (Store.new.set_with_expiry [107] [118] none 0) :=
  have hnew : StoreWeakInv Store.new := fun _ =>
    ⟨fun hs => Bool.noConfusion hs, fun hs => Bool.noConfusion hs,
      fun _ hl _ => Option.noConfusion hl⟩
  ⟨hnew, (c2_weak_invariant_preserved Store.new hnew).1 [107] [118] none 0⟩

/-- A slice `l[a..b]` with `b ≤ a` is empty. -/
theorem slice_empty (l : List (List Nat)) (a b : Nat) (h : b ≤ a) :
    (l.take b).drop a = [] := by
  apply List.drop_eq_nil_of_le
  calc (l.take b).length ≤ b := by
        rw [List.length_take]; exact Nat.min_le_left _ _
    _ ≤ a := h

/-- `wrapI128` is the identity on the `i128` range. -/
theorem wrapI128_eq (x : Int) (h1 : -(2 : Int) ^ 127 ≤ x)
    (h2 : x ≤ 2 ^ 127 - 1) : wrapI128 x = x := by
  unfold wrapI128
  have hAB : (2 : Int) ^ 128 = 2 * 2 ^ 127 := by ring
  have hmod : (x + 2 ^ 127) % 2 ^ 128 = x + 2 ^ 127 :=
    Int.emod_eq_of_lt (by omega) (by omega)
  rw [hmod]
  omega

set_option maxRecDepth 8000 in
/-- C6 counterexample: at `e = i128::MAX` the `end += 1` step of
`Store::lrange` overflows: a release build wraps to `i128::MIN` (a debug
build panics), so `LRANGE(["a"], 0, i128::MAX)` returns the empty list
while the claimed mathematical slice is the whole list. -/
theorem c6_lrange_end_max_overflows :
    lrange_core [[97]] 0 (2 ^ 127 - 1) = []
    ∧ lrangeSpec [[97]] 0 (2 ^ 127 - 1) = [[97]] := by
  constructor
  · rfl
  · rfl

/-- C6 (amended): for every stored list and all `i128` indices `s`, `e`
with `e < i128::MAX` (so that the `end += 1` step cannot overflow),
`LRANGE` equals the mathematical slice `L[max(0,s') : min(len, e'+1)]`
where `s' = s + len` when `s < 0` else `s` and `e' = e + len` when `e < 0`
else `e`, and it returns the empty list when `s' > e'` or `s' ≥ len`.  The
list length is bounded by `usize` as in the source (`list.len() as i128`). -/
theorem c6_lrange_matches_spec (l : List (List Nat)) (s e : Int)
    (hs1 : -(2 : Int) ^ 127 ≤ s) (hs2 : s ≤ 2 ^ 127 - 1)
    (he1 : -(2 : Int) ^ 127 ≤ e) (he2 : e < 2 ^ 127 - 1)
    (hlen : (l.length : Int) < 2 ^ 64) :
    lrange_core l s e = lrangeSpec l s e
    ∧ (((if s < 0 then s + (l.length : Int) else s) >
          (if e < 0 then e + (l.length : Int) else e)
        ∨ (if s < 0 then s + (l.length : Int) else s) ≥ (l.length : Int)) →
        lrange_core l s e = []) := by
  have hL0 : (0 : Int) ≤ (l.length : Int) := Int.natCast_nonneg _
  have hpow : (2 : Int) ^ 64 ≤ 2 ^ 127 - 1 := by norm_num
  have hwrap : wrapI128 ((if e < 0 then e + (l.length : Int) else e) + 1) =
      (if e < 0 then e + (l.length : Int) else e) + 1 := by
    apply wrapI128_eq <;> split <;> omega
  constructor
  · unfold lrange_core lrangeSpec
    dsimp only
    rw [hwrap]
    split_ifs <;>
      first
        | rfl
        | omega
        | (apply slice_empty; omega)
        | (exact (slice_empty _ _ _ (by omega)).symm)
        | (symm; apply slice_empty; omega)
        | (congr 1 <;> first | omega | (congr 1 <;> omega))
  · intro hor
    unfold lrange_core
    dsimp only
    rw [hwrap]
    split_ifs <;>
      first
        | rfl
        | omega
        | (apply slice_empty; omega)

/-- Witness for C6 on a three-element list with negative indices. -/
theorem c6_lrange_matches_spec_witness :
    lrange_core [[97], [98], [99]] (-3) (-1) =
      lrangeSpec [[97], [98], [99]] (-3) (-1)
    ∧ lrangeSpec [[97], [98], [99]] (-3) (-1) = [[97], [98], [99]] :=
  ⟨(c6_lrange_matches_spec [[97], [98], [99]] (-3) (-1)
      (by norm_num) (by norm_num) (by norm_num) (by norm_num) (by norm_num)).1,
   rfl⟩

theorem slt_trans (a b c : StreamId) (h1 : a.slt b) (h2 : b.slt c) : a.slt c := by
  rcases a with ⟨am, as'⟩; rcases b with ⟨bm, bs⟩; rcases c with ⟨cm, cs⟩
  unfold StreamId.slt at *
  simp only at *
  omega

theorem slt_irrefl (a : StreamId) : ¬ a.slt a := by
  rcases a with ⟨am, as'⟩
  unfold StreamId.slt
  simp only
  omega

theorem slt_ne (a b : StreamId) (h : a.slt b) : a ≠ b := by
  intro hc
  subst hc
  exact slt_irrefl a h

theorem not_sle_iff (a b : StreamId) : ¬ a.sle b ↔ b.slt a := by
  rcases a with ⟨am, as'⟩; rcases b with ⟨bm, bs⟩
  unfold StreamId.sle StreamId.slt
  simp only [StreamId.mk.injEq, not_or]
  constructor
  · intro ⟨h1, h2⟩
    omega
  · intro h
    omega

theorem btreeLastId_nil_iff (m : StreamMap) : btreeLastId m = none ↔ m = [] := by
  cases m with
  | nil => simp [btreeLastId]
  | cons a t =>
    simp only [btreeLastId]
    constructor
    · intro h
      cases hg : (a :: t).getLast? with
      | none => exact absurd (List.getLast?_eq_none_iff.mp hg) (by simp)
      | some x => rw [hg] at h; exact Option.noConfusion h
    · intro h
      exact List.noConfusion h

/-- The last id of a strictly sorted stream map bounds every id in it. -/
theorem strictSorted_le_last (m : StreamMap) (last : StreamId)
    (hs : strictSorted m) (hl : btreeLastId m = some last) :
    ∀ p ∈ m, p.1 = last ∨ p.1.slt last := by
  induction m with
  | nil => intro p hp; simp at hp
  | cons a t ih =>
    intro p hp
    cases t with
    | nil =>
      have ha : a.1 = last := by
        simp [btreeLastId] at hl
        rw [hl]
      rcases List.mem_cons.mp hp with rfl | hpt
      · exact Or.inl ha
      · simp at hpt
    | cons b t2 =>
      have hl2 : btreeLastId ((b :: t2 : StreamMap)) = some last := by
        simpa [btreeLastId] using hl
      have hs2 : strictSorted ((b :: t2 : StreamMap)) := by
        unfold strictSorted at hs ⊢
        simp only [List.map_cons] at hs ⊢
        exact (List.chain'_cons.mp hs).2
      have hab : a.1.slt b.1 := by
        unfold strictSorted at hs
        simp only [List.map_cons] at hs
        exact (List.chain'_cons.mp hs).1
      rcases List.mem_cons.mp hp with rfl | hpt
      · have hb := ih hs2 hl2 b (List.mem_cons_self b t2)
        rcases hb with hb1 | hb2
        · exact Or.inr (hb1 ▸ hab)
        · exact Or.inr (slt_trans _ _ _ hab hb2)
      · exact ih hs2 hl2 p hpt

/-- Looking up an id strictly above every key of the map fails. -/
theorem lookup_none_of_all_lt (m : StreamMap) (id : StreamId)
    (hall : ∀ p ∈ m, p.1.slt id) : m.lookup id = none := by
  induction m with
  | nil => rfl
  | cons a t ih =>
    have hne : id ≠ a.1 := (slt_ne _ _ (hall a (List.mem_cons_self a t))).symm
    rcases a with ⟨k, v⟩
    have hbeq : (id == k) = false := beq_eq_false_iff_ne.mpr (by simpa using hne)
    simp only [List.lookup, hbeq]
    exact ih (fun p hp => hall p (List.mem_cons_of_mem _ hp))

/-- Inserting an id strictly above every key appends at the end. -/
theorem btreeInsert_append (m : StreamMap) (id : StreamId) (fm : FieldMap)
    (hall : ∀ p ∈ m, p.1.slt id) : btreeInsert m id fm = m ++ [(id, fm)] := by
  induction m with
  | nil => rfl
  | cons a t ih =>
    have ha := hall a (List.mem_cons_self a t)
    rcases a with ⟨k, v⟩
    unfold btreeInsert
    rw [if_neg, if_neg]
    · rw [ih (fun p hp => hall p (List.mem_cons_of_mem _ hp))]
      rfl
    · exact (slt_ne _ _ ha).symm
    · intro hc
      exact slt_irrefl id (slt_trans _ _ _ hc ha)

/-- Appending a strictly larger id keeps the map strictly sorted. -/
theorem strictSorted_append (m : StreamMap) (id : StreamId) (fm : FieldMap)
    (hs : strictSorted m) (hall : ∀ p ∈ m, p.1.slt id) :
    strictSorted (m ++ [(id, fm)]) := by
  unfold strictSorted at hs ⊢
  rw [List.map_append]
  rw [List.chain'_append]
  refine ⟨hs, by simp, fun x hx y hy => ?_⟩
  simp only [List.map_cons, List.map_nil, List.head?_cons, Option.mem_def,
    Option.some.injEq] at hy
  subst hy
  have hmem : x ∈ m.map Prod.fst := List.mem_of_mem_getLast? hx
  obtain ⟨p, hp, rfl⟩ := List.mem_map.mp hmem
  exact hall p hp

/-- C5: on a strictly sorted stream (as every stream built by `xadd` is),
(1) every successful XADD appends an entry whose resolved id is strictly
greater than every id already in the stream — so after any sequence of
successful XADDs the resolved ids are strictly increasing under the
lexicographic (ms, seq) order — and the stream stays strictly sorted;
(2) a resolved id below (0,1) is rejected with `StreamIdNotGreaterThan0`,
leaving the stream's entries unchanged; (3) a resolved id ≤ the current top
id is rejected with `StreamIdSmallerThanLast`, leaving the stream's entries
unchanged. -/
theorem c5_xadd_monotonic (st : Store) (key : List Nat) (seq ms : Option Nat)
    (now : Nat) (args : List RedisType)
    (hs : strictSorted ((st.streams key).getD [])) :
    (∀ id, (st.xadd key seq ms now args).2 = .ok id →
      (st.xadd key seq ms now args).1.streams key =
        some (((st.streams key).getD []) ++ [(id, insert_keys_and_values args [])])
      ∧ (∀ p ∈ (st.streams key).getD [], p.1.slt id)
      ∧ strictSorted (((st.xadd key seq ms now args).1.streams key).getD []))
    ∧ (∀ id,
        resolveId ms seq (((st.streams key).bind btreeLastId).getD ⟨0, 0⟩) now =
          some id →
        id.slt ⟨0, 1⟩ →
        (st.xadd key seq ms now args).2 = .notGreaterThan0
        ∧ (st.xadd key seq ms now args).1.streams key = st.streams key)
    ∧ (∀ id btree last,
        resolveId ms seq (((st.streams key).bind btreeLastId).getD ⟨0, 0⟩) now =
          some id →
        ¬ id.slt ⟨0, 1⟩ →
        st.streams key = some btree →
        btreeLastId btree = some last →
        id.sle last →
        (st.xadd key seq ms now args).2 = .smallerThanLast
        ∧ (st.xadd key seq ms now args).1.streams key = st.streams key) := by
  unfold Store.xadd
  dsimp only
  cases hR : resolveId ms seq (((st.streams key).bind btreeLastId).getD ⟨0, 0⟩) now with
  | none =>
    refine ⟨fun id h => XaddResult.noConfusion h,
      fun id hres => Option.noConfusion hres,
      fun id btree last hres => Option.noConfusion hres⟩
  | some rid =>
    dsimp only
    by_cases hlt : rid.slt ⟨0, 1⟩
    · rw [if_pos hlt]
      refine ⟨fun id h => XaddResult.noConfusion h,
        fun id hres hlt2 => ⟨rfl, rfl⟩,
        fun id btree last hres hnlt _ _ _ => ?_⟩
      obtain rfl : rid = id := Option.some.inj hres
      exact absurd hlt hnlt
    · rw [if_neg hlt]
      cases hbt : st.streams key with
      | none =>
        refine ⟨fun id h => ?_, fun id hres hlt2 => ?_,
          fun id btree last hres hnlt hbt2 => Option.noConfusion hbt2⟩
        · obtain rfl : rid = id := XaddResult.ok.inj h
          refine ⟨?_, by simp, ?_⟩
          · show (upd st.streams key _) key = _
            rw [upd_eval, if_pos rfl]
            simp
          · show strictSorted (((upd st.streams key _) key).getD [])
            rw [upd_eval, if_pos rfl]
            simp [strictSorted]
        · obtain rfl : rid = id := Option.some.inj hres
          exact absurd hlt2 hlt
      | some bt =>
        rw [hbt] at hs
        simp only [Option.getD_some] at hs
        dsimp only
        cases hbl : btreeLastId bt with
        | none =>
          dsimp only
          obtain rfl : bt = [] := (btreeLastId_nil_iff bt).mp hbl
          refine ⟨fun id h => ?_, fun id hres hlt2 => ?_,
            fun id btree last hres hnlt hbt2 hbl2 _ => ?_⟩
          · obtain rfl : rid = id := XaddResult.ok.inj h
            refine ⟨?_, by simp, ?_⟩
            · show (upd st.streams key _) key = _
              rw [upd_eval, if_pos rfl]
              simp [btreeInsert, insert_keys_and_values, List.lookup]
            · show strictSorted (((upd st.streams key _) key).getD [])
              rw [upd_eval, if_pos rfl]
              simp [btreeInsert, strictSorted, List.lookup]
          · obtain rfl : rid = id := Option.some.inj hres
            exact absurd hlt2 hlt
          · obtain rfl : ([] : StreamMap) = btree := Option.some.inj hbt2
            exact absurd hbl2 (by simp [btreeLastId])
        | some last =>
          dsimp only
          have hall_of : ∀ id, ¬ id.sle last →
              ∀ p ∈ bt, p.1.slt id := by
            intro id hnsle p hp
            have hlast := strictSorted_le_last bt last hs hbl p hp
            have hlid : last.slt id := (not_sle_iff id last).mp hnsle
            rcases hlast with h1 | h2
            · exact h1 ▸ hlid
            · exact slt_trans _ _ _ h2 hlid
          by_cases hsle : rid.sle last
          · rw [if_pos hsle]
            refine ⟨fun id h => XaddResult.noConfusion h,
              fun id hres hlt2 => ?_,
              fun id btree last2 hres hnlt hbt2 hbl2 hsle2 => ⟨rfl, hbt⟩⟩
            obtain rfl : rid = id := Option.some.inj hres
            exact absurd hlt2 hlt
          · rw [if_neg hsle]
            have hall := hall_of rid hsle
            refine ⟨fun id h => ?_, fun id hres hlt2 => ?_,
              fun id btree last2 hres hnlt hbt2 hbl2 hsle2 => ?_⟩
            · obtain rfl : rid = id := XaddResult.ok.inj h
              have hlook : (List.lookup rid bt).getD [] = ([] : FieldMap) := by
                rw [lookup_none_of_all_lt bt rid hall]
                rfl
              refine ⟨?_, by simpa using hall, ?_⟩
              · show (upd st.streams key _) key = _
                rw [upd_eval, if_pos rfl]
                rw [hlook, btreeInsert_append bt rid _ hall]
                simp
              · show strictSorted (((upd st.streams key _) key).getD [])
                rw [upd_eval, if_pos rfl]
                rw [hlook, btreeInsert_append bt rid _ hall]
                simpa using strictSorted_append bt rid _ hs hall
            · obtain rfl : rid = id := Option.some.inj hres
              exact absurd hlt2 hlt
            · obtain rfl : rid = id := Option.some.inj hres
              obtain rfl : bt = btree := Option.some.inj hbt2
              obtain rfl : last = last2 := by
                rw [hbl] at hbl2
                exact Option.some.inj hbl2
              exact absurd hsle2 hsle

/-- Witness for C5: two successful XADDs with explicit ids `1-1` then
`1-2` on the empty store produce the strictly increasing stream, and a
third XADD with id `1-2` is rejected with `StreamIdSmallerThanLast`. -/
theorem c5_xadd_monotonic_witness :
    strictSorted ((Store.new.streams [115]).getD [])
    ∧ ((Store.new.xadd [115] (some 1) (some 1) 0 []).2 = .ok ⟨1, 1⟩
    ∧ (((Store.new.xadd [115] (some 1) (some 1) 0 []).1.xadd [115] (some 2)
        (some 1) 0 []).2 = .ok ⟨1, 2⟩)
    ∧ ((((Store.new.xadd [115] (some 1) (some 1) 0 []).1.xadd [115] (some 2)
        (some 1) 0 []).1.xadd [115] (some 2) (some 1) 0 []).2 = .smallerThanLast))
    ∧ (∀ p ∈ (Store.new.streams [115]).getD [], p.1.slt ⟨1, 1⟩) :=
  ⟨List.chain'_nil, ⟨rfl, rfl, rfl⟩,
    ((c5_xadd_monotonic Store.new [115] (some 1) (some 1) 0 []
      List.chain'_nil).1 ⟨1, 1⟩ rfl).2.1⟩
